import Mathlib

namespace Spec2Proof

/-- Modelled from the spec: a point, as used by hit-testing. The geometry
module (`Point`, `Bounds`) is not among the provided sources; coordinates are
modelled as integers. -/
structure GPoint where
  x : Int
  y : Int
deriving DecidableEq, Repr

/-- Modelled from the spec: a size (width and height). -/
structure GSize where
  width : Int
  height : Int
deriving DecidableEq, Repr

/-- Modelled from the spec: a rectangle given by origin and size. -/
structure GBounds where
  origin : GPoint
  size : GSize
deriving DecidableEq, Repr

/-- Modelled from the spec: rectangle membership (half-open on the far
edges). -/
def GBounds.contains (b : GBounds) (p : GPoint) : Bool :=
  decide (b.origin.x ≤ p.x) && decide (p.x < b.origin.x + b.size.width) &&
    decide (b.origin.y ≤ p.y) && decide (p.y < b.origin.y + b.size.height)

/-- Modelled from the spec: rectangle intersection, used to clip a hitbox by
its content mask before the containment test. -/
def GBounds.intersect (b other : GBounds) : GBounds :=
  let ox := max b.origin.x other.origin.x
  let oy := max b.origin.y other.origin.y
  let cx := min (b.origin.x + b.size.width) (other.origin.x + other.size.width)
  let cy := min (b.origin.y + b.size.height) (other.origin.y + other.size.height)
  ⟨⟨ox, oy⟩, ⟨cx - ox, cy - oy⟩⟩

/-- `Hitbox` from `window.rs`: id, bounds, the content mask captured at
insertion, and the flag (named `opaque` in the source) saying whether the
hitbox occludes hitboxes inserted prior. -/
structure Hitbox where
  id : Nat
  bounds : GBounds
  content_mask : GBounds
  occludes : Bool
deriving DecidableEq, Repr

/-- The effective containment test of `Frame::hit_test`: the hitbox bounds
clipped by the content mask must contain the probe position. -/
def Hitbox.hits (hb : Hitbox) (position : GPoint) : Bool :=
  (hb.bounds.intersect hb.content_mask).contains position

/-- The loop of `Frame::hit_test`, applied to the hitboxes already reversed
into back-to-front order: push the id of every hitbox whose clipped bounds
contain the position, and break right after the first such hitbox that is
opaque. -/
def hitTestScan : List Hitbox → GPoint → List Nat
  | [], _ => []
  | hb :: rest, position =>
    if hb.hits position then
      if hb.occludes then [hb.id]
      else hb.id :: hitTestScan rest position
    else hitTestScan rest position

/-- `Frame` from `window.rs`, restricted to the fields the verified claims
read. `element_states` is the `FxHashMap` keyed by (global element id,
state type id), modelled as an association list; `dispatch_tree` is modelled
from the spec as the flat list of dispatch nodes grown during prepaint (its
`len`/`truncate` operate on that list); listener, handler, draw and request
collections are kept as lists of opaque tokens since only their lengths and
contents as collections matter here. -/
structure Frame where
  focus : Option Nat
  element_states : List ((Nat × Nat) × Nat)
  accessed_element_states : List (Nat × Nat)
  mouse_listeners : List Nat
  dispatch_tree : List Nat
  hitboxes : List Hitbox
  deferred_draws : List Nat
  input_handlers : List Nat
  tooltip_requests : List (Option Nat)
  cursor_styles : List Nat
deriving DecidableEq, Repr

/-- `Frame::hit_test` from `window.rs`: iterate the frame's hitboxes in
reverse insertion order, collecting hits and stopping at the first opaque
hit. -/
def Frame.hit_test (f : Frame) (position : GPoint) : List Nat :=
  hitTestScan f.hitboxes.reverse position

/-- Written from the spec's words, for comparison with `Frame.hit_test`: cut
a back-to-front list of hitboxes just after the first opaque one. -/
def cutAfterFirstOpaque : List Hitbox → List Nat
  | [] => []
  | hb :: rest => if hb.occludes then [hb.id] else hb.id :: cutAfterFirstOpaque rest

/-- Written from the spec's words ("hit-testing scans the current frame's
hitboxes back-to-front, stopping at the first opaque rectangle that contains
the probe point"): keep the hitboxes containing the probe, in back-to-front
order, and cut just after the first opaque one among them. -/
def specHitTest (hitboxes : List Hitbox) (position : GPoint) : List Nat :=
  cutAfterFirstOpaque (hitboxes.reverse.filter (fun hb => hb.hits position))

/-- `Frame::clear` from `window.rs`: reset all per-frame collections for
reuse. -/
def Frame.clear (f : Frame) : Frame :=
  { f with
    element_states := []
    accessed_element_states := []
    mouse_listeners := []
    dispatch_tree := []
    input_handlers := []
    tooltip_requests := []
    cursor_styles := []
    hitboxes := []
    deferred_draws := []
    focus := none }

/-- `FxHashMap::remove_entry` on the association-list model: remove and
return the entry with the given key, when present. -/
def removeEntry : List ((Nat × Nat) × Nat) → (Nat × Nat) →
    Option (((Nat × Nat) × Nat) × List ((Nat × Nat) × Nat))
  | [], _ => none
  | e :: rest, k =>
    if e.1 = k then some (e, rest)
    else
      match removeEntry rest k with
      | none => none
      | some (e2, rest2) => some (e2, e :: rest2)

/-- `FxHashMap::insert` on the association-list model: replace the entry with
the given key, or append a new one. -/
def insertEntry : List ((Nat × Nat) × Nat) → (Nat × Nat) → Nat →
    List ((Nat × Nat) × Nat)
  | [], k, v => [(k, v)]
  | e :: rest, k, v => if e.1 = k then (k, v) :: rest else e :: insertEntry rest k v

/-- Map lookup on the association-list model. -/
def lookupEntry : List ((Nat × Nat) × Nat) → (Nat × Nat) → Option Nat
  | [], _ => none
  | e :: rest, k => if e.1 = k then some e.2 else lookupEntry rest k

/-- The loop of `Frame::finish`: for each recorded accessed element-state key,
in order, remove the entry from the previous frame's map when present and
insert it into the finishing frame's map. Returns both maps. -/
def migrateStates : List (Nat × Nat) → List ((Nat × Nat) × Nat) →
    List ((Nat × Nat) × Nat) → List ((Nat × Nat) × Nat) × List ((Nat × Nat) × Nat)
  | [], nextStates, prevStates => (nextStates, prevStates)
  | k :: ks, nextStates, prevStates =>
    match removeEntry prevStates k with
    | some (e, prevRest) => migrateStates ks (insertEntry nextStates e.1 e.2) prevRest
    | none => migrateStates ks nextStates prevStates

/-- `Frame::finish` from `window.rs`: migrate the element state recorded as
accessed during the pass from the previous frame into the finishing frame
(the scene finalization is out of scope). Returns (finishing frame, previous
frame) after migration. -/
def Frame.finish (f prev_frame : Frame) : Frame × Frame :=
  let moved := migrateStates f.accessed_element_states f.element_states prev_frame.element_states
  ({ f with element_states := moved.1 }, { prev_frame with element_states := moved.2 })

/-- The frame-swap tail of `Window::draw` from `window.rs`: finish the next
frame against the rendered frame, swap the two, and clear the new next frame.
Takes (rendered, next) and returns (rendered, next) after the pass. -/
def drawSwap (rendered_frame next_frame : Frame) : Frame × Frame :=
  let finished := Frame.finish next_frame rendered_frame
  (finished.1, finished.2.clear)

/-- `PrepaintStateIndex` from `window.rs` (the external text-system layout
index is out of scope here). -/
structure PrepaintStateIndex where
  hitboxes_index : Nat
  tooltips_index : Nat
  deferred_draws_index : Nat
  dispatch_tree_index : Nat
  accessed_element_states_index : Nat
deriving DecidableEq, Repr

/-- The window state `Window::transact` manipulates: the frame being built. -/
structure WindowFrameState where
  next_frame : Frame
deriving DecidableEq, Repr

/-- `Window::prepaint_index` from `window.rs`: snapshot the lengths of the
frame-store collections grown during prepaint. -/
def prepaint_index (w : WindowFrameState) : PrepaintStateIndex :=
  { hitboxes_index := w.next_frame.hitboxes.length
    tooltips_index := w.next_frame.tooltip_requests.length
    deferred_draws_index := w.next_frame.deferred_draws.length
    dispatch_tree_index := w.next_frame.dispatch_tree.length
    accessed_element_states_index := w.next_frame.accessed_element_states.length }

/-- `Window::transact` from `window.rs`: snapshot the prepaint index, run the
wrapped computation, and when it returns an error truncate the frame-store
collections back to the snapshot (the text-system layout truncation is out of
scope). -/
def transact {T U : Type} (w : WindowFrameState)
    (f : WindowFrameState → WindowFrameState × Except U T) :
    WindowFrameState × Except U T :=
  let index := prepaint_index w
  let run := f w
  match run.2 with
  | Except.error e =>
    (⟨{ run.1.next_frame with
        hitboxes := run.1.next_frame.hitboxes.take index.hitboxes_index
        tooltip_requests := run.1.next_frame.tooltip_requests.take index.tooltips_index
        deferred_draws := run.1.next_frame.deferred_draws.take index.deferred_draws_index
        dispatch_tree := run.1.next_frame.dispatch_tree.take index.dispatch_tree_index
        accessed_element_states :=
          run.1.next_frame.accessed_element_states.take index.accessed_element_states_index }⟩,
      Except.error e)
  | Except.ok t => (run.1, Except.ok t)

/-- `DispatchPhase` from gpui: capture or bubble. -/
inductive DispatchPhase
  | capture
  | bubble
deriving DecidableEq, Repr

/-- The four listener stages of `Window::dispatch_action_on_node`, in source
order. -/
inductive DispatchStage
  | globalCapture
  | windowCapture
  | windowBubble
  | globalBubble
deriving DecidableEq, Repr

/-- Numeric position of each stage in the source order. -/
def DispatchStage.idx : DispatchStage → Nat
  | DispatchStage.globalCapture => 0
  | DispatchStage.windowCapture => 1
  | DispatchStage.windowBubble => 2
  | DispatchStage.globalBubble => 3

/-- An action listener: the action type id it is registered for, an identity
used to record its invocations, and its effect on `cx.propagate_event` (a
listener observes the flag's value at entry and may set it). -/
structure ActionListener where
  id : Nat
  action_type : Nat
  effect : DispatchPhase → Bool → Bool

/-- A dispatch-tree node restricted to what action dispatch reads from it:
its registered action listeners. -/
structure DispatchNode where
  action_listeners : List ActionListener

/-- One recorded listener invocation: the stage it happened in and the
listener that ran. -/
structure Invocation where
  stage : DispatchStage
  listener : Nat
deriving DecidableEq, Repr

/-- The dispatcher state threaded through `dispatch_action_on_node`:
`cx.propagate_event` plus the log of listener invocations so far. -/
structure DispatchState where
  propagate_event : Bool
  invoked : List Invocation
deriving DecidableEq, Repr

/-- The capture-phase loop over global action listeners in
`dispatch_action_on_node`: invoke each listener, breaking as soon as
propagation is stopped. -/
def runGlobalCapture : List ActionListener → DispatchState → DispatchState
  | [], s => s
  | l :: ls, s =>
    let s1 : DispatchState :=
      ⟨l.effect DispatchPhase.capture s.propagate_event,
        s.invoked ++ [⟨DispatchStage.globalCapture, l.id⟩]⟩
    if s1.propagate_event then runGlobalCapture ls s1 else s1

/-- The inner capture-phase loop over one node's action listeners: invoke
each listener whose action type matches, returning early once propagation is
stopped. -/
def runNodeCapture (ty : Nat) : List ActionListener → DispatchState → DispatchState
  | [], s => s
  | l :: ls, s =>
    if l.action_type = ty then
      let s1 : DispatchState :=
        ⟨l.effect DispatchPhase.capture s.propagate_event,
          s.invoked ++ [⟨DispatchStage.windowCapture, l.id⟩]⟩
      if s1.propagate_event then runNodeCapture ty ls s1 else s1
    else runNodeCapture ty ls s

/-- The capture-phase loop over the dispatch path (root→target) in
`dispatch_action_on_node`. -/
def runPathCapture (ty : Nat) : List DispatchNode → DispatchState → DispatchState
  | [], s => s
  | n :: ns, s =>
    let s1 := runNodeCapture ty n.action_listeners s
    if s1.propagate_event then runPathCapture ty ns s1 else s1

/-- The inner bubble-phase loop over one node's action listeners: before each
matching listener runs, `cx.propagate_event` is set to false (actions stop
propagation by default during the bubble phase); return early unless the
listener re-enabled propagation. -/
def runNodeBubble (ty : Nat) : List ActionListener → DispatchState → DispatchState
  | [], s => s
  | l :: ls, s =>
    if l.action_type = ty then
      let s1 : DispatchState :=
        ⟨l.effect DispatchPhase.bubble false,
          s.invoked ++ [⟨DispatchStage.windowBubble, l.id⟩]⟩
      if s1.propagate_event then runNodeBubble ty ls s1 else s1
    else runNodeBubble ty ls s

/-- The bubble-phase loop over the reversed dispatch path (target→root) in
`dispatch_action_on_node`. -/
def runPathBubble (ty : Nat) : List DispatchNode → DispatchState → DispatchState
  | [], s => s
  | n :: ns, s =>
    let s1 := runNodeBubble ty n.action_listeners s
    if s1.propagate_event then runPathBubble ty ns s1 else s1

/-- The bubble-phase loop over global action listeners (iterated in reverse
registration order), with propagation stopped by default before each
listener. -/
def runGlobalBubble : List ActionListener → DispatchState → DispatchState
  | [], s => s
  | l :: ls, s =>
    let s1 : DispatchState :=
      ⟨l.effect DispatchPhase.bubble false,
        s.invoked ++ [⟨DispatchStage.globalBubble, l.id⟩]⟩
    if s1.propagate_event then runGlobalBubble ls s1 else s1

/-- `Window::dispatch_action_on_node` from `window.rs`: set
`cx.propagate_event` to true, then run the four stages in order — global
capture, window capture along the dispatch path (root→target), window bubble
along the reversed path (target→root), global bubble — stopping as soon as a
stage ends with propagation stopped. -/
def dispatch_action_on_node (global_listeners : List ActionListener)
    (dispatch_path : List DispatchNode) (ty : Nat) : DispatchState :=
  let s0 : DispatchState := ⟨true, []⟩
  let s1 := runGlobalCapture global_listeners s0
  if s1.propagate_event then
    let s2 := runPathCapture ty dispatch_path s1
    if s2.propagate_event then
      let s3 := runPathBubble ty dispatch_path.reverse s2
      if s3.propagate_event then runGlobalBubble global_listeners.reverse s3
      else s3
    else s2
  else s1

/-- `PendingInput` from `window.rs`: the pending keystrokes of a partially
matched binding sequence and the focus captured when the sequence began (the
timer task itself lives on the executor and is external). Keystrokes are
opaque tokens. -/
structure PendingInput where
  keystrokes : List Nat
  focus : Option Nat
deriving DecidableEq, Repr

/-- `DrawPhase` from `window.rs`. -/
inductive DrawPhase
  | none
  | prepaint
  | paint
  | focus
deriving DecidableEq, Repr

/-- `Window` from `window.rs`, restricted to the fields focus handling and
pending-keystroke handling read and write. -/
structure Window where
  focus : Option Nat
  focus_enabled : Bool
  pending_input : Option PendingInput
  dirty : Bool
  refreshing : Bool
  draw_phase : DrawPhase
deriving DecidableEq, Repr

/-- `Window::refresh` from `window.rs`: outside a draw pass, set `refreshing`
and mark the window dirty; during a draw pass it does nothing. -/
def Window.refresh (w : Window) : Window :=
  if w.draw_phase = DrawPhase.none then { w with refreshing := true, dirty := true }
  else w

/-- `Window::clear_pending_keystrokes` from `window.rs`. -/
def Window.clear_pending_keystrokes (w : Window) : Window :=
  { w with pending_input := none }

/-- `Window::focus` from `window.rs` (named `focusOn` here because `focus` is
the field name): return early when focus is disabled or the handle's id is
already focused; otherwise set the focus, clear pending keystrokes, and
refresh. -/
def Window.focusOn (w : Window) (id : Nat) : Window :=
  if !w.focus_enabled || w.focus == some id then w
  else (Window.clear_pending_keystrokes { w with focus := some id }).refresh

/-- The duration, in seconds, of the pending-keystroke timeout in
`Window::dispatch_key_event` (`Duration::from_secs(1)`). -/
def pendingInputTimeoutSecs : Nat := 1

/-- The branch of `Window::dispatch_key_event` that stores a pending match
remainder: the pending keystrokes are saved together with the window's
current focus (and a timeout task is spawned). -/
def storePendingInput (w : Window) (pending : List Nat) : Window :=
  { w with pending_input := some ⟨pending, w.focus⟩ }

/-- The timeout callback body spawned by `Window::dispatch_key_event`: take
the pending input unconditionally; only when the focus it captured still
equals the window's current focus, flush it (the flushed keystrokes are
handed to `DispatchTree::flush_dispatch` and replayed). Returns the new
window state together with the flushed keystrokes, if any. -/
def firePendingTimeout (w : Window) : Window × Option (List Nat) :=
  match w.pending_input with
  | none => ({ w with pending_input := none }, none)
  | some p =>
    if p.focus = w.focus then ({ w with pending_input := none }, some p.keystrokes)
    else ({ w with pending_input := none }, none)

/-- `NavigationMode` from `pane.rs`. -/
inductive NavigationMode
  | normal
  | goingBack
  | goingForward
  | closingItem
  | reopeningClosedItem
  | disabled
deriving DecidableEq, Repr

/-- `NavigationEntry` from `pane.rs`: the owning item (an opaque token), the
logical-clock timestamp, and the preview flag (the per-entry data box is
elided). -/
structure NavigationEntry where
  item : Nat
  timestamp : Nat
  is_preview : Bool
deriving DecidableEq, Repr

/-- `MAX_NAVIGATION_HISTORY_LEN` from `pane.rs`. -/
def MAX_NAVIGATION_HISTORY_LEN : Nat := 1024

/-- `NavHistoryState` from `pane.rs`, restricted to the fields `push`
touches. The deques keep their front at the list head and their back at the
list end. -/
structure NavHistoryState where
  mode : NavigationMode
  backward_stack : List NavigationEntry
  forward_stack : List NavigationEntry
  closed_stack : List NavigationEntry
  next_timestamp : Nat
deriving DecidableEq, Repr

/-- The per-deque push step repeated in each arm of `NavHistory::push`: when
the deque is at capacity, pop the front (oldest) entry, then push the new
entry at the back. -/
def pushBounded (stack : List NavigationEntry) (e : NavigationEntry) :
    List NavigationEntry :=
  (if MAX_NAVIGATION_HISTORY_LEN ≤ stack.length then stack.drop 1 else stack) ++ [e]

/-- `NavHistory::push` from `pane.rs`: mode-gated bounded pushes. `Normal`
and `ReopeningClosedItem` record on the backward stack and clear the forward
stack; `GoingBack` records on the forward stack; `GoingForward` records on
the backward stack; `ClosingItem` records on the closed stack; `Disabled`
records nothing. The entry timestamp is taken from the fetch-and-increment
of `next_timestamp`. -/
def NavHistory.push (st : NavHistoryState) (item : Nat) (is_preview : Bool) :
    NavHistoryState :=
  match st.mode with
  | NavigationMode.disabled => st
  | NavigationMode.normal =>
    { st with
      backward_stack := pushBounded st.backward_stack ⟨item, st.next_timestamp, is_preview⟩
      forward_stack := []
      next_timestamp := st.next_timestamp + 1 }
  | NavigationMode.reopeningClosedItem =>
    { st with
      backward_stack := pushBounded st.backward_stack ⟨item, st.next_timestamp, is_preview⟩
      forward_stack := []
      next_timestamp := st.next_timestamp + 1 }
  | NavigationMode.goingBack =>
    { st with
      forward_stack := pushBounded st.forward_stack ⟨item, st.next_timestamp, is_preview⟩
      next_timestamp := st.next_timestamp + 1 }
  | NavigationMode.goingForward =>
    { st with
      backward_stack := pushBounded st.backward_stack ⟨item, st.next_timestamp, is_preview⟩
      next_timestamp := st.next_timestamp + 1 }
  | NavigationMode.closingItem =>
    { st with
      closed_stack := pushBounded st.closed_stack ⟨item, st.next_timestamp, is_preview⟩
      next_timestamp := st.next_timestamp + 1 }

/-- The focus-handle registry from `window.rs`: per focus id, `none` when the
slot is free and `some c` when the slot holds the strong-handle count `c`.
Models `SlotMap<FocusId, AtomicUsize>`. -/
def FocusRegistry : Type := Nat → Option Nat

/-- `FocusHandle::for_id` from `window.rs`: succeed only when the slot exists
with a nonzero count, incrementing the count. Returns the updated registry
when it succeeds. -/
def for_id (m : FocusRegistry) (id : Nat) : Option FocusRegistry :=
  match m id with
  | none => none
  | some c =>
    if c = 0 then none
    else some (fun j => if j = id then some (c + 1) else m j)

/-- `Drop for FocusHandle` from `window.rs`: decrement the slot's count. -/
def dropHandle (m : FocusRegistry) (id : Nat) : FocusRegistry :=
  fun j => if j = id then (m j).map (fun c => c - 1) else m j

/-- `WeakFocusHandle::upgrade` from `window.rs`, with the registry arc still
alive: delegate to `FocusHandle::for_id`. -/
def upgradeWeak (m : FocusRegistry) (id : Nat) : Option FocusRegistry :=
  for_id m id

/-- A clone/drop event on the strong handles of one focus id. -/
inductive FocusOp
  | clone
  | drop
deriving DecidableEq, Repr

/-- Evolution of the recorded count for one focus id: a clone goes through
`for_id` (which increments only a nonzero count), a handle drop decrements. -/
def countStep (c : Nat) : FocusOp → Nat
  | FocusOp.clone => if c = 0 then c else c + 1
  | FocusOp.drop => c - 1

/-- The recorded count after a sequence of clone/drop operations. -/
def countAfter (ops : List FocusOp) (c : Nat) : Nat :=
  ops.foldl countStep c

/-- Evolution of the number of live strong handles: a clone creates one, a
drop destroys one. -/
def liveStep (l : Nat) : FocusOp → Nat
  | FocusOp.clone => l + 1
  | FocusOp.drop => l - 1

/-- The number of live strong handles after a sequence of operations. -/
def liveAfter (ops : List FocusOp) (l : Nat) : Nat :=
  ops.foldl liveStep l

/-- A clone or drop can only be performed through an existing live handle, so
each operation requires at least one live handle. -/
def validOps : List FocusOp → Nat → Bool
  | [], _ => true
  | op :: ops, l => decide (0 < l) && validOps ops (liveStep l op)

/-- A concrete opaque hitbox covering the region `R = [0,10) × [0,10)`. -/
def hbA : Hitbox :=
  ⟨0, ⟨⟨0, 0⟩, ⟨10, 10⟩⟩, ⟨⟨0, 0⟩, ⟨100, 100⟩⟩, true⟩

/-- A concrete non-opaque hitbox covering the sub-region `[2,4) × [2,4)` of
`R`, inserted after `hbA`. -/
def hbB : Hitbox :=
  ⟨1, ⟨⟨2, 2⟩, ⟨2, 2⟩⟩, ⟨⟨0, 0⟩, ⟨100, 100⟩⟩, false⟩

/-- The hitbox `hbB` with the opaque flag set. -/
def hbBop : Hitbox :=
  ⟨1, ⟨⟨2, 2⟩, ⟨2, 2⟩⟩, ⟨⟨0, 0⟩, ⟨100, 100⟩⟩, true⟩

/-- An otherwise empty frame. -/
def emptyFrame : Frame :=
  ⟨none, [], [], [], [], [], [], [], [], []⟩

/-- A frame whose hitboxes are `hbA` then non-opaque `hbB`, in insertion
order. -/
def frameAB : Frame :=
  { emptyFrame with hitboxes := [hbA, hbB] }

/-- A frame whose hitboxes are `hbA` then opaque `hbBop`, in insertion
order. -/
def frameABop : Frame :=
  { emptyFrame with hitboxes := [hbA, hbBop] }

/-- A window holding focus id 3, with focus enabled, outside a draw pass. -/
def wFocused : Window :=
  ⟨some 3, true, none, false, false, DrawPhase.none⟩

/-- A window in the middle of prepaint, unfocused, with a pending keystroke
sequence and a clean dirty flag. -/
def wPrepaint : Window :=
  ⟨none, true, some ⟨[1], none⟩, false, false, DrawPhase.prepaint⟩

/-- A window focused on id 2 whose pending input was captured under that same
focus. -/
def wPending : Window :=
  ⟨some 2, true, some ⟨[7], some 2⟩, false, false, DrawPhase.none⟩

/-- An empty window frame state for exercising `transact`. -/
def wfEmpty : WindowFrameState :=
  ⟨emptyFrame⟩

/-- A prepaint computation that inserts one hitbox, one tooltip request, one
deferred draw, one dispatch node and one accessed-state record, then signals
failure. -/
def fFail : WindowFrameState → WindowFrameState × Except Unit Unit :=
  fun w =>
    (⟨{ w.next_frame with
        hitboxes := w.next_frame.hitboxes ++ [hbA]
        tooltip_requests := w.next_frame.tooltip_requests ++ [some 0]
        deferred_draws := w.next_frame.deferred_draws ++ [0]
        dispatch_tree := w.next_frame.dispatch_tree ++ [0]
        accessed_element_states := w.next_frame.accessed_element_states ++ [(0, 0)] }⟩,
      Except.error ())

/-- A listener that never writes `cx.propagate_event` (its value is left as
the dispatcher set it). -/
def passListener : ActionListener :=
  ⟨10, 0, fun _ b => b⟩

/-- A listener that always stops propagation. -/
def stopListener : ActionListener :=
  ⟨11, 0, fun _ _ => false⟩

/-- A bubble-only root listener for the concrete dispatch scenario: inert
during capture, and it does not re-enable propagation during bubble. -/
def rootBubbleListener : ActionListener :=
  ⟨0, 5, fun _ b => b⟩

/-- A bubble-only leaf listener for the concrete dispatch scenario: inert
during capture, and it does not re-enable propagation during bubble. -/
def leafBubbleListener : ActionListener :=
  ⟨1, 5, fun _ b => b⟩

/-- A next frame that accessed key (1,1) (present locally) and key (2,2)
(present in the previous frame), but not key (3,3). -/
def nextFrameW : Frame :=
  { emptyFrame with
    element_states := [((1, 1), 5)]
    accessed_element_states := [(1, 1), (2, 2)] }

/-- A previous (rendered) frame holding element state for keys (2,2) and
(3,3). -/
def prevFrameW : Frame :=
  { emptyFrame with element_states := [((2, 2), 7), ((3, 3), 9)] }

/-- A navigation history in normal mode with one backward entry. -/
def navNormal : NavHistoryState :=
  ⟨NavigationMode.normal, [⟨0, 0, false⟩], [], [], 1⟩

/-- C10: calling `Window::focus` with the id that is already the window's
current focus returns early and is a complete no-op: the window state,
including the pending keystrokes and the dirty flag, is unchanged. -/
theorem C10_focus_already_focused_noop (w : Window) (id : Nat)
    (h : w.focus = some id) : Window.focusOn w id = w := by
  unfold Window.focusOn
  simp [h]

/-- Witness for C10 at a concrete window focused on id 3. -/
theorem C10_focus_already_focused_noop_witness :
    Window.focusOn wFocused 3 = wFocused :=
  C10_focus_already_focused_noop wFocused 3 rfl

/-- Counterexample to C6 as stated: at a window in the prepaint phase with
focus enabled and nothing focused, `Window::focus` does set the focus and
clear the pending keystrokes, yet the dirty flag stays false, because
`Window::refresh` does nothing during a draw pass. -/
theorem C6_counterexample :
    (Window.focusOn wPrepaint 7).focus = some 7
      ∧ (Window.focusOn wPrepaint 7).pending_input = none
      ∧ (Window.focusOn wPrepaint 7).dirty = false := by
  decide

/-- C6 (amended): with focus disabled, `Window::focus` leaves the window
unchanged; with focus enabled and a different id, it sets the focus and
clears the pending keystrokes, and it marks the window dirty exactly when no
draw pass is in progress (during a draw pass the dirty and refreshing flags
are untouched). -/
theorem C6_focus_amended (w : Window) (id : Nat) :
    (w.focus_enabled = false → Window.focusOn w id = w)
      ∧ (w.focus_enabled = true → w.focus ≠ some id →
          (Window.focusOn w id).focus = some id
            ∧ (Window.focusOn w id).pending_input = none
            ∧ (w.draw_phase = DrawPhase.none → (Window.focusOn w id).dirty = true)
            ∧ (w.draw_phase ≠ DrawPhase.none →
                (Window.focusOn w id).dirty = w.dirty
                  ∧ (Window.focusOn w id).refreshing = w.refreshing)) := by
  constructor
  · intro h
    unfold Window.focusOn
    simp [h]
  · intro he hf
    unfold Window.focusOn Window.clear_pending_keystrokes Window.refresh
    by_cases hd : w.draw_phase = DrawPhase.none <;>
      simp [he, hf, hd]

/-- Witness for C6 (amended) at a concrete enabled, unfocused window outside
a draw pass. -/
theorem C6_focus_amended_witness :
    (Window.focusOn ⟨none, true, some ⟨[1], none⟩, false, false, DrawPhase.none⟩ 7).focus
        = some 7
      ∧ (Window.focusOn ⟨none, true, some ⟨[1], none⟩, false, false, DrawPhase.none⟩ 7).dirty
        = true := by
  have h := (C6_focus_amended ⟨none, true, some ⟨[1], none⟩, false, false, DrawPhase.none⟩ 7).2
    rfl (by decide)
  exact ⟨h.1, h.2.2.1 rfl⟩

/-- C5: the pending-keystroke remainder is stored together with the focus
captured when the sequence began, under a one-second timeout; when the
timeout fires, the pending input is taken, and it is flushed (yielding its
keystrokes for replay) exactly when the window's current focus still equals
the captured focus — a prefix captured under one focus is never flushed after
the focus has changed. -/
theorem C5_pending_timeout_guard :
    pendingInputTimeoutSecs = 1
      ∧ (∀ (w : Window) (ks : List Nat),
          (storePendingInput w ks).pending_input = some ⟨ks, w.focus⟩)
      ∧ (∀ (w : Window) (p : PendingInput), w.pending_input = some p →
          p.focus = w.focus →
          firePendingTimeout w = ({ w with pending_input := none }, some p.keystrokes))
      ∧ (∀ (w : Window) (p : PendingInput), w.pending_input = some p →
          p.focus ≠ w.focus →
          firePendingTimeout w = ({ w with pending_input := none }, none))
      ∧ (∀ w : Window, (firePendingTimeout w).2 ≠ none →
          ∃ p, w.pending_input = some p ∧ p.focus = w.focus) := by
  refine ⟨rfl, fun w ks => rfl, ?_, ?_, ?_⟩
  · intro w p hp hfoc
    unfold firePendingTimeout
    rw [hp]
    simp [hfoc]
  · intro w p hp hfoc
    unfold firePendingTimeout
    rw [hp]
    simp [hfoc]
  · intro w h
    unfold firePendingTimeout at h
    cases hp : w.pending_input with
    | none => rw [hp] at h; simp at h
    | some p =>
      rw [hp] at h
      by_cases hfoc : p.focus = w.focus
      · exact ⟨p, rfl, hfoc⟩
      · simp [hfoc] at h

/-- Witness for C5 at a concrete window whose pending input was captured
under the still-current focus: the timeout flushes the stored keystrokes. -/
theorem C5_pending_timeout_guard_witness :
    firePendingTimeout wPending = ({ wPending with pending_input := none }, some [7]) :=
  C5_pending_timeout_guard.2.2.1 wPending ⟨[7], some 2⟩ rfl rfl

/-- The recorded count tracks the live strong-handle count along any valid
sequence of clone/drop operations. -/
theorem countAfter_eq_liveAfter (ops : List FocusOp) :
    ∀ c : Nat, validOps ops c = true → countAfter ops c = liveAfter ops c := by
  induction ops with
  | nil => intro c _; rfl
  | cons op ops ih =>
    intro c h
    unfold validOps at h
    rw [Bool.and_eq_true] at h
    obtain ⟨h1, h2⟩ := h
    have hc : 0 < c := of_decide_eq_true h1
    have hstep : countStep c op = liveStep c op := by
      cases op with
      | clone =>
        unfold countStep liveStep
        rw [if_neg (Nat.pos_iff_ne_zero.mp hc)]
      | drop => rfl
    show countAfter ops (countStep c op) = liveAfter ops (liveStep c op)
    rw [hstep]
    exact ih (liveStep c op) h2

/-- C4: along every valid sequence of clone/drop operations on a focus id
(starting from the fresh handle with count 1), the recorded count equals the
number of live strong handles; `FocusHandle::for_id` (and hence
`WeakFocusHandle::upgrade`) fails exactly when the count has reached zero;
cloning increments the count and dropping decrements it. -/
theorem C4_refcount_invariant (ops : List FocusOp) (h : validOps ops 1 = true) :
    countAfter ops 1 = liveAfter ops 1
      ∧ (∀ (m : FocusRegistry) (id c : Nat), m id = some c →
          ((for_id m id = none ↔ c = 0) ∧ (upgradeWeak m id = none ↔ c = 0)))
      ∧ (∀ c : Nat, 0 < c → countStep c FocusOp.clone = c + 1)
      ∧ (∀ c : Nat, countStep c FocusOp.drop = c - 1)
      ∧ (∀ (m : FocusRegistry) (id c : Nat), m id = some c →
          dropHandle m id id = some (c - 1)) := by
  refine ⟨countAfter_eq_liveAfter ops 1 h, ?_, ?_, fun c => rfl, ?_⟩
  · intro m id c hm
    have hfor : (for_id m id = none ↔ c = 0) := by
      unfold for_id
      rw [hm]
      by_cases hc : c = 0
      · simp [hc]
      · simp [hc]
    exact ⟨hfor, hfor⟩
  · intro c hc
    unfold countStep
    rw [if_neg (Nat.pos_iff_ne_zero.mp hc)]
  · intro m id c hm
    unfold dropHandle
    simp [hm]

/-- Witness for C4 on the concrete sequence clone, drop, drop: the count and
the live-handle count both end at zero, and `for_id` then fails on a registry
recording that count. -/
theorem C4_refcount_invariant_witness :
    countAfter [FocusOp.clone, FocusOp.drop, FocusOp.drop] 1
        = liveAfter [FocusOp.clone, FocusOp.drop, FocusOp.drop] 1
      ∧ for_id (fun j => if j = 0 then some 0 else none) 0 = none := by
  have h := C4_refcount_invariant [FocusOp.clone, FocusOp.drop, FocusOp.drop] (by decide)
  refine ⟨h.1, ?_⟩
  exact ((h.2.1 (fun j => if j = 0 then some 0 else none) 0 0 rfl).1).mpr rfl

/-- One bounded push keeps a deque within the capacity. -/
theorem pushBounded_length_le (stack : List NavigationEntry) (e : NavigationEntry)
    (h : stack.length ≤ MAX_NAVIGATION_HISTORY_LEN) :
    (pushBounded stack e).length ≤ MAX_NAVIGATION_HISTORY_LEN := by
  unfold pushBounded
  unfold MAX_NAVIGATION_HISTORY_LEN at *
  by_cases hc : 1024 ≤ stack.length
  · rw [if_pos hc, List.length_append, List.length_drop]
    simp only [List.length_cons, List.length_nil]
    omega
  · rw [if_neg hc, List.length_append]
    simp only [List.length_cons, List.length_nil]
    omega

/-- C9: `NavHistory::push` keeps each of the three deques within the 1024
capacity; a push at capacity first evicts the front (oldest) entry and then
appends at the back, while below capacity it only appends; in the going-back
mode nothing is added to the backward stack (the entry is recorded on the
forward stack instead); and while disabled nothing is recorded at all. -/
theorem C9_nav_history_bounded (st : NavHistoryState) (item : Nat) (ip : Bool) :
    ((st.backward_stack.length ≤ MAX_NAVIGATION_HISTORY_LEN →
        (NavHistory.push st item ip).backward_stack.length ≤ MAX_NAVIGATION_HISTORY_LEN)
      ∧ (st.forward_stack.length ≤ MAX_NAVIGATION_HISTORY_LEN →
          (NavHistory.push st item ip).forward_stack.length ≤ MAX_NAVIGATION_HISTORY_LEN)
      ∧ (st.closed_stack.length ≤ MAX_NAVIGATION_HISTORY_LEN →
          (NavHistory.push st item ip).closed_stack.length ≤ MAX_NAVIGATION_HISTORY_LEN))
      ∧ (∀ (stack : List NavigationEntry) (e : NavigationEntry),
          MAX_NAVIGATION_HISTORY_LEN ≤ stack.length →
            pushBounded stack e = stack.drop 1 ++ [e])
      ∧ (∀ (stack : List NavigationEntry) (e : NavigationEntry),
          stack.length < MAX_NAVIGATION_HISTORY_LEN →
            pushBounded stack e = stack ++ [e])
      ∧ (st.mode = NavigationMode.goingBack →
          (NavHistory.push st item ip).backward_stack = st.backward_stack)
      ∧ (st.mode = NavigationMode.disabled → NavHistory.push st item ip = st) := by
  refine ⟨?_, ?_, ?_, ?_, ?_⟩
  · refine ⟨fun h => ?_, fun h => ?_, fun h => ?_⟩ <;>
      cases hm : st.mode <;>
      simp only [NavHistory.push, hm] <;>
      first
        | exact pushBounded_length_le _ _ h
        | exact h
        | exact Nat.zero_le _
  · intro stack e h
    unfold pushBounded
    rw [if_pos h]
  · intro stack e h
    unfold pushBounded
    rw [if_neg (by omega)]
  · intro hm
    simp [NavHistory.push, hm]
  · intro hm
    simp [NavHistory.push, hm]

/-- Witness for C9 at a concrete one-entry history in normal mode. -/
theorem C9_nav_history_bounded_witness :
    (NavHistory.push navNormal 9 false).backward_stack.length
        ≤ MAX_NAVIGATION_HISTORY_LEN
      ∧ pushBounded [⟨0, 0, false⟩] ⟨9, 1, false⟩ = [⟨0, 0, false⟩, ⟨9, 1, false⟩] := by
  have h := C9_nav_history_bounded navNormal 9 false
  refine ⟨h.1.1 (by decide), ?_⟩
  rw [h.2.2.1 [⟨0, 0, false⟩] ⟨9, 1, false⟩ (by decide)]
  simp

/-- C3: a `transact` whose wrapped computation fails truncates the prepaint
frame-store collections back to their pre-transaction lengths — provided the
attempt only grew them, their counts after the failed attempt equal their
counts before it, and the error is passed through; a successful `transact`
returns exactly what the computation produced. -/
theorem C3_transact_rollback {T U : Type} (w : WindowFrameState)
    (f : WindowFrameState → WindowFrameState × Except U T) :
    ((f w).2.isOk = true → transact w f = f w)
      ∧ (∀ e : U, (f w).2 = Except.error e →
          w.next_frame.hitboxes.length ≤ (f w).1.next_frame.hitboxes.length →
          w.next_frame.tooltip_requests.length
              ≤ (f w).1.next_frame.tooltip_requests.length →
          w.next_frame.deferred_draws.length
              ≤ (f w).1.next_frame.deferred_draws.length →
          w.next_frame.dispatch_tree.length
              ≤ (f w).1.next_frame.dispatch_tree.length →
          w.next_frame.accessed_element_states.length
              ≤ (f w).1.next_frame.accessed_element_states.length →
          (transact w f).1.next_frame.hitboxes.length = w.next_frame.hitboxes.length
            ∧ (transact w f).1.next_frame.tooltip_requests.length
                = w.next_frame.tooltip_requests.length
            ∧ (transact w f).1.next_frame.deferred_draws.length
                = w.next_frame.deferred_draws.length
            ∧ (transact w f).1.next_frame.dispatch_tree.length
                = w.next_frame.dispatch_tree.length
            ∧ (transact w f).1.next_frame.accessed_element_states.length
                = w.next_frame.accessed_element_states.length
            ∧ (transact w f).2 = Except.error e) := by
  constructor
  · intro hok
    cases hr : (f w).2 with
    | error e =>
      rw [hr] at hok
      simp [Except.isOk, Except.toBool] at hok
    | ok t =>
      simp only [transact]
      rw [hr]
      show ((f w).1, Except.ok t) = f w
      rw [← hr]
  · intro e hr h1 h2 h3 h4 h5
    have ht : transact w f =
        (⟨{ (f w).1.next_frame with
            hitboxes :=
              (f w).1.next_frame.hitboxes.take (prepaint_index w).hitboxes_index
            tooltip_requests :=
              (f w).1.next_frame.tooltip_requests.take (prepaint_index w).tooltips_index
            deferred_draws :=
              (f w).1.next_frame.deferred_draws.take (prepaint_index w).deferred_draws_index
            dispatch_tree :=
              (f w).1.next_frame.dispatch_tree.take (prepaint_index w).dispatch_tree_index
            accessed_element_states :=
              (f w).1.next_frame.accessed_element_states.take
                (prepaint_index w).accessed_element_states_index }⟩,
          Except.error e) := by
      simp only [transact]
      rw [hr]
    rw [ht]
    refine ⟨?_, ?_, ?_, ?_, ?_, rfl⟩ <;>
      simp [prepaint_index, List.length_take] <;> omega

/-- Witness for C3: a concrete failing prepaint attempt that appended one
element to each collection is rolled back to the empty pre-transaction
state. -/
theorem C3_transact_rollback_witness :
    (transact wfEmpty fFail).1.next_frame.hitboxes.length
        = wfEmpty.next_frame.hitboxes.length
      ∧ (transact wfEmpty fFail).2 = Except.error () := by
  have h := (C3_transact_rollback wfEmpty fFail).2 () rfl
    (by decide) (by decide) (by decide) (by decide) (by decide)
  exact ⟨h.1, h.2.2.2.2.2⟩

/-- The hit-test loop equals the spec's description: keep the containing
hitboxes, cut just after the first opaque one among them. -/
theorem hitTestScan_eq_cut (p : GPoint) :
    ∀ l : List Hitbox,
      hitTestScan l p = cutAfterFirstOpaque (l.filter (fun hb => hb.hits p)) := by
  intro l
  induction l with
  | nil => rfl
  | cons hb rest ih =>
    by_cases h : hb.hits p = true
    · cases ho : hb.occludes <;>
        simp [hitTestScan, cutAfterFirstOpaque, List.filter, h, ho, ih]
    · simp [hitTestScan, List.filter, h, ih]

/-- Counterexample to C2 as stated: with `hbA` opaque covering `R` and the
later-inserted `hbB` non-opaque covering a sub-region of `R`, a probe inside
`hbB`'s sub-region returns both ids `[1, 0]` (hbB then hbA), not hbB only —
the claim's occlusion of `A` needs `B` itself to be opaque. -/
theorem C2_counterexample :
    Frame.hit_test frameAB ⟨3, 3⟩ = [1, 0]
      ∧ Frame.hit_test frameAB ⟨3, 3⟩ ≠ [1] := by
  decide

/-- C2 (amended): `hit_test` scans the frame's hitboxes in reverse insertion
order and stops at the first opaque hitbox containing the probe point
(exactly the spec-side scan over the containing hitboxes); and for hitboxes
inserted in order A (opaque, covering R) then B (opaque, covering a
sub-region of R), a probe inside B's sub-region returns B only while a probe
outside B but inside R returns A. -/
theorem C2_hit_test_ordering (f : Frame) (position : GPoint) :
    f.hit_test position = specHitTest f.hitboxes position
      ∧ (∀ (a b : Hitbox) (p q : GPoint),
          f.hitboxes = [a, b] →
          a.occludes = true → b.occludes = true →
          a.hits p = true → b.hits p = true →
          a.hits q = true → b.hits q = false →
          f.hit_test p = [b.id] ∧ f.hit_test q = [a.id]) := by
  constructor
  · exact hitTestScan_eq_cut position f.hitboxes.reverse
  · intro a b p q hf hao hbo hap hbp haq hbq
    unfold Frame.hit_test
    rw [hf]
    constructor
    · simp [hitTestScan, hbp, hbo]
    · simp [hitTestScan, hbq, haq, hao]

/-- Witness for C2 (amended) on the concrete frame with both hitboxes
opaque: the probe (3,3) inside B returns B only, the probe (8,8) outside B
but inside R returns A. -/
theorem C2_hit_test_ordering_witness :
    Frame.hit_test frameABop ⟨3, 3⟩ = [1]
      ∧ Frame.hit_test frameABop ⟨8, 8⟩ = [0] := by
  have h := (C2_hit_test_ordering frameABop ⟨0, 0⟩).2 hbA hbBop ⟨3, 3⟩ ⟨8, 8⟩
    rfl (by decide) (by decide) (by decide) (by decide) (by decide) (by decide)
  exact ⟨h.1, h.2⟩

/-- Lookup after an association-list insert: the inserted key maps to the
inserted value, other keys are unchanged. -/
theorem lookup_insertEntry (k : Nat × Nat) (v : Nat) :
    ∀ (m : List ((Nat × Nat) × Nat)) (k2 : Nat × Nat),
      lookupEntry (insertEntry m k v) k2 =
        if k2 = k then some v else lookupEntry m k2 := by
  intro m
  induction m with
  | nil =>
    intro k2
    by_cases h : k2 = k
    · simp [insertEntry, lookupEntry, h]
    · simp [insertEntry, lookupEntry, h, Ne.symm h]
  | cons e rest ih =>
    intro k2
    by_cases he : e.1 = k
    · by_cases h2 : k2 = k
      · simp [insertEntry, lookupEntry, he, h2]
      · simp [insertEntry, lookupEntry, he, h2, Ne.symm h2]
    · by_cases h2 : k2 = k
      · simp [insertEntry, lookupEntry, he, h2, ih]
      · simp [insertEntry, lookupEntry, he, h2, Ne.symm h2, ih]

/-- When `remove_entry` finds nothing, the key is absent. -/
theorem removeEntry_none (k : Nat × Nat) :
    ∀ m : List ((Nat × Nat) × Nat),
      removeEntry m k = none → lookupEntry m k = none := by
  intro m
  induction m with
  | nil => intro _; rfl
  | cons e rest ih =>
    intro h
    rw [removeEntry] at h
    by_cases he : e.1 = k
    · rw [if_pos he] at h
      exact absurd h (by simp)
    · rw [if_neg he] at h
      rw [lookupEntry, if_neg he]
      apply ih
      cases hr : removeEntry rest k with
      | none => rfl
      | some pr => rw [hr] at h; simp at h

/-- When `remove_entry` succeeds it returns the entry under the requested
key, and removal leaves every other key's lookup unchanged. -/
theorem removeEntry_some (k : Nat × Nat) :
    ∀ (m rest : List ((Nat × Nat) × Nat)) (e : (Nat × Nat) × Nat),
      removeEntry m k = some (e, rest) →
        e.1 = k ∧ lookupEntry m k = some e.2
          ∧ ∀ k2 : Nat × Nat, k2 ≠ k → lookupEntry rest k2 = lookupEntry m k2 := by
  intro m
  induction m with
  | nil =>
    intro rest e h
    exact absurd h (by simp [removeEntry])
  | cons e0 m0 ih =>
    intro rest e h
    rw [removeEntry] at h
    by_cases he : e0.1 = k
    · rw [if_pos he] at h
      simp only [Option.some.injEq, Prod.mk.injEq] at h
      obtain ⟨ha, hb⟩ := h
      subst ha
      subst hb
      refine ⟨he, ?_, ?_⟩
      · rw [lookupEntry, if_pos he]
      · intro k2 hk2
        rw [lookupEntry, if_neg (fun hc : e0.1 = k2 => hk2 (hc ▸ he))]
    · rw [if_neg he] at h
      cases hr : removeEntry m0 k with
      | none =>
        rw [hr] at h
        exact absurd h (by simp)
      | some pr =>
        obtain ⟨e2, rest2⟩ := pr
        rw [hr] at h
        simp only [Option.some.injEq, Prod.mk.injEq] at h
        obtain ⟨ha, hb⟩ := h
        subst ha
        subst hb
        obtain ⟨h1, h2, h3⟩ := ih rest2 e2 hr
        refine ⟨h1, ?_, ?_⟩
        · rw [lookupEntry, if_neg he]
          exact h2
        · intro k2 hk2
          simp only [lookupEntry]
          by_cases h4 : e0.1 = k2
          · rw [if_pos h4, if_pos h4]
          · rw [if_neg h4, if_neg h4]
            exact h3 k2 hk2

/-- The key membership of the finishing frame's state map after the
migration loop: a key is present afterwards exactly when it was already
present in the finishing frame, or it was recorded as accessed and present in
the previous frame. -/
theorem migrate_lookup (k : Nat × Nat) :
    ∀ (ks : List (Nat × Nat)) (nextS prevS : List ((Nat × Nat) × Nat)),
      (lookupEntry (migrateStates ks nextS prevS).1 k).isSome = true ↔
        (lookupEntry nextS k).isSome = true
          ∨ (k ∈ ks ∧ (lookupEntry prevS k).isSome = true) := by
  intro ks
  induction ks with
  | nil =>
    intro nextS prevS
    simp [migrateStates]
  | cons k0 ks ih =>
    intro nextS prevS
    cases hr : removeEntry prevS k0 with
    | none =>
      have hnone := removeEntry_none k0 prevS hr
      simp only [migrateStates, hr]
      rw [ih]
      by_cases hk : k = k0
      · subst hk
        simp [hnone]
      · simp [List.mem_cons, hk]
    | some pr =>
      obtain ⟨e, prevRest⟩ := pr
      obtain ⟨h1, h2, h3⟩ := removeEntry_some k0 prevS prevRest e hr
      by_cases hk : k = k0
      · simp only [migrateStates, hr]
        rw [ih]
        rw [lookup_insertEntry]
        subst hk
        simp [h1, h2]
      · simp only [migrateStates, hr]
        rw [ih]
        rw [lookup_insertEntry]
        rw [if_neg (h1 ▸ hk)]
        rw [h3 k hk]
        simp [List.mem_cons, hk]

/-- C7: `Frame::finish` migrates into the finishing frame exactly those
element-state entries whose keys were recorded as accessed and are present in
the previous frame's map (in addition to what the finishing frame already
holds); consequently — given that every key inserted during the pass is also
recorded as accessed — once the draw completes (frames finished, swapped, and
the old rendered frame cleared), an entry whose key was not accessed during
the pass survives in neither frame. -/
theorem C7_element_state_migration (next prev : Frame) (k : Nat × Nat) :
    ((lookupEntry (Frame.finish next prev).1.element_states k).isSome = true ↔
        (lookupEntry next.element_states k).isSome = true
          ∨ (k ∈ next.accessed_element_states
              ∧ (lookupEntry prev.element_states k).isSome = true))
      ∧ ((∀ k2 : Nat × Nat, (lookupEntry next.element_states k2).isSome = true →
            k2 ∈ next.accessed_element_states) →
          k ∉ next.accessed_element_states →
          lookupEntry (drawSwap prev next).1.element_states k = none
            ∧ lookupEntry (drawSwap prev next).2.element_states k = none) := by
  have hmain := migrate_lookup k next.accessed_element_states
    next.element_states prev.element_states
  constructor
  · exact hmain
  · intro hsub hk
    constructor
    · have hnext : (lookupEntry next.element_states k).isSome = false := by
        cases hlk : (lookupEntry next.element_states k).isSome with
        | false => rfl
        | true => exact absurd (hsub k hlk) hk
      have : (lookupEntry (Frame.finish next prev).1.element_states k).isSome = false := by
        cases hlk : (lookupEntry (Frame.finish next prev).1.element_states k).isSome with
        | false => rfl
        | true =>
          rcases hmain.mp hlk with h | h
          · rw [hnext] at h; exact absurd h (by simp)
          · exact absurd h.1 hk
      have hgoal : (lookupEntry (drawSwap prev next).1.element_states k).isSome = false := this
      exact Option.not_isSome_iff_eq_none.mp (by rw [hgoal]; simp)
    · show lookupEntry (Frame.finish next prev).2.clear.element_states k = none
      rw [Frame.clear]
      rfl

/-- Witness for C7 at concrete frames: the key (3,3), present in the
previous frame but never accessed, survives in neither frame after the
draw. -/
theorem C7_element_state_migration_witness :
    lookupEntry (drawSwap prevFrameW nextFrameW).1.element_states (3, 3) = none
      ∧ lookupEntry (drawSwap prevFrameW nextFrameW).2.element_states (3, 3) = none :=
  (C7_element_state_migration nextFrameW prevFrameW (3, 3)).2
    (fun k2 h => by
      have hk2 : k2 = ((1 : Nat), (1 : Nat)) := by
        by_cases hk : k2 = ((1 : Nat), (1 : Nat))
        · exact hk
        · exfalso
          have hnone : lookupEntry nextFrameW.element_states k2 = none := by
            show lookupEntry [((1, 1), 5)] k2 = none
            rw [lookupEntry, if_neg (fun hc => hk hc.symm), lookupEntry]
          rw [hnone] at h
          exact absurd h (by simp)
      subst hk2
      decide)
    (by decide)

/-- C1: with a root node and a leaf node each holding a bubble-phase
listener for the dispatched action type (both inert during capture),
dispatching on the leaf always invokes the leaf's listener in the bubble
phase; the root's bubble listener is not invoked when the leaf's listener
leaves propagation stopped (the default set by the dispatcher), and it is
invoked exactly when the leaf's listener explicitly re-enables
propagation. -/
theorem C1_bubble_default_stop (rootL leafL : ActionListener) (ty : Nat)
    (hty1 : rootL.action_type = ty) (hty2 : leafL.action_type = ty)
    (hne : rootL.id ≠ leafL.id)
    (hc1 : rootL.effect DispatchPhase.capture true = true)
    (hc2 : leafL.effect DispatchPhase.capture true = true) :
    (Invocation.mk DispatchStage.windowBubble leafL.id)
        ∈ (dispatch_action_on_node [] [⟨[rootL]⟩, ⟨[leafL]⟩] ty).invoked
      ∧ (leafL.effect DispatchPhase.bubble false = false →
          (Invocation.mk DispatchStage.windowBubble rootL.id)
            ∉ (dispatch_action_on_node [] [⟨[rootL]⟩, ⟨[leafL]⟩] ty).invoked)
      ∧ (leafL.effect DispatchPhase.bubble false = true →
          (Invocation.mk DispatchStage.windowBubble rootL.id)
            ∈ (dispatch_action_on_node [] [⟨[rootL]⟩, ⟨[leafL]⟩] ty).invoked) := by
  cases hb : leafL.effect DispatchPhase.bubble false with
  | false =>
    refine ⟨?_, fun _ => ?_, fun hcontr => absurd hcontr (by simp)⟩ <;>
      simp [dispatch_action_on_node, runGlobalCapture, runPathCapture, runNodeCapture,
        runPathBubble, runNodeBubble, runGlobalBubble, hty1, hty2, hc1, hc2, hb,
        hne, Ne.symm hne]
  | true =>
    cases hrb : rootL.effect DispatchPhase.bubble false with
    | false =>
      refine ⟨?_, fun hcontr => absurd hcontr (by simp), fun _ => ?_⟩ <;>
        simp [dispatch_action_on_node, runGlobalCapture, runPathCapture, runNodeCapture,
          runPathBubble, runNodeBubble, runGlobalBubble, hty1, hty2, hc1, hc2, hb, hrb]
    | true =>
      refine ⟨?_, fun hcontr => absurd hcontr (by simp), fun _ => ?_⟩ <;>
        simp [dispatch_action_on_node, runGlobalCapture, runPathCapture, runNodeCapture,
          runPathBubble, runNodeBubble, runGlobalBubble, hty1, hty2, hc1, hc2, hb, hrb]

/-- Witness for C1 on concrete bubble-only listeners that do not re-enable
propagation: the leaf's bubble invocation is recorded, the root's is not. -/
theorem C1_bubble_default_stop_witness :
    (Invocation.mk DispatchStage.windowBubble leafBubbleListener.id)
        ∈ (dispatch_action_on_node []
            [⟨[rootBubbleListener]⟩, ⟨[leafBubbleListener]⟩] 5).invoked
      ∧ (Invocation.mk DispatchStage.windowBubble rootBubbleListener.id)
        ∉ (dispatch_action_on_node []
            [⟨[rootBubbleListener]⟩, ⟨[leafBubbleListener]⟩] 5).invoked := by
  have h := C1_bubble_default_stop rootBubbleListener leafBubbleListener 5
    rfl rfl (by decide) rfl rfl
  exact ⟨h.1, h.2.1 rfl⟩

/-- The global-capture loop only appends invocations, all tagged with its own
stage. -/
theorem runGlobalCapture_invoked (ls : List ActionListener) :
    ∀ s : DispatchState, ∃ t : List Invocation,
      (runGlobalCapture ls s).invoked = s.invoked ++ t
        ∧ ∀ i ∈ t, i.stage = DispatchStage.globalCapture := by
  induction ls with
  | nil =>
    intro s
    exact ⟨[], by simp [runGlobalCapture]⟩
  | cons l ls ih =>
    intro s
    simp only [runGlobalCapture]
    cases hv : l.effect DispatchPhase.capture s.propagate_event with
    | true =>
      obtain ⟨t, ht, hall⟩ :=
        ih ⟨true, s.invoked ++ [⟨DispatchStage.globalCapture, l.id⟩]⟩
      refine ⟨⟨DispatchStage.globalCapture, l.id⟩ :: t, ?_, ?_⟩
      · simp only [hv, if_true]
        rw [ht]
        simp
      · intro i hi
        rcases List.mem_cons.mp hi with h | h
        · rw [h]
        · exact hall i h
    | false =>
      refine ⟨[⟨DispatchStage.globalCapture, l.id⟩], ?_, ?_⟩
      · simp [hv]
      · intro i hi
        rcases List.mem_cons.mp hi with h | h
        · rw [h]
        · exact absurd h (by simp)

/-- The per-node capture loop only appends invocations, all tagged with the
window-capture stage. -/
theorem runNodeCapture_invoked (ty : Nat) (ls : List ActionListener) :
    ∀ s : DispatchState, ∃ t : List Invocation,
      (runNodeCapture ty ls s).invoked = s.invoked ++ t
        ∧ ∀ i ∈ t, i.stage = DispatchStage.windowCapture := by
  induction ls with
  | nil =>
    intro s
    exact ⟨[], by simp [runNodeCapture]⟩
  | cons l ls ih =>
    intro s
    simp only [runNodeCapture]
    by_cases hty : l.action_type = ty
    · simp only [hty, if_true, if_pos rfl]
      cases hv : l.effect DispatchPhase.capture s.propagate_event with
      | true =>
        obtain ⟨t, ht, hall⟩ :=
          ih ⟨true, s.invoked ++ [⟨DispatchStage.windowCapture, l.id⟩]⟩
        refine ⟨⟨DispatchStage.windowCapture, l.id⟩ :: t, ?_, ?_⟩
        · simp only [hv, if_true]
          rw [ht]
          simp
        · intro i hi
          rcases List.mem_cons.mp hi with h | h
          · rw [h]
          · exact hall i h
      | false =>
        refine ⟨[⟨DispatchStage.windowCapture, l.id⟩], ?_, ?_⟩
        · simp [hv]
        · intro i hi
          rcases List.mem_cons.mp hi with h | h
          · rw [h]
          · exact absurd h (by simp)
    · simp only [if_neg hty]
      exact ih s

/-- The path-capture loop only appends invocations, all tagged with the
window-capture stage. -/
theorem runPathCapture_invoked (ty : Nat) (ns : List DispatchNode) :
    ∀ s : DispatchState, ∃ t : List Invocation,
      (runPathCapture ty ns s).invoked = s.invoked ++ t
        ∧ ∀ i ∈ t, i.stage = DispatchStage.windowCapture := by
  induction ns with
  | nil =>
    intro s
    exact ⟨[], by simp [runPathCapture]⟩
  | cons n ns ih =>
    intro s
    simp only [runPathCapture]
    obtain ⟨t1, ht1, hall1⟩ := runNodeCapture_invoked ty n.action_listeners s
    cases hv : (runNodeCapture ty n.action_listeners s).propagate_event with
    | true =>
      obtain ⟨t2, ht2, hall2⟩ := ih (runNodeCapture ty n.action_listeners s)
      refine ⟨t1 ++ t2, ?_, ?_⟩
      · simp only [hv, if_true]
        rw [ht2, ht1]
        simp
      · intro i hi
        rcases List.mem_append.mp hi with h | h
        · exact hall1 i h
        · exact hall2 i h
    | false =>
      refine ⟨t1, ?_, ?_⟩
      · simp only [hv, Bool.false_eq_true, if_false]
        exact ht1
      · exact hall1

/-- The per-node bubble loop only appends invocations, all tagged with the
window-bubble stage. -/
theorem runNodeBubble_invoked (ty : Nat) (ls : List ActionListener) :
    ∀ s : DispatchState, ∃ t : List Invocation,
      (runNodeBubble ty ls s).invoked = s.invoked ++ t
        ∧ ∀ i ∈ t, i.stage = DispatchStage.windowBubble := by
  induction ls with
  | nil =>
    intro s
    exact ⟨[], by simp [runNodeBubble]⟩
  | cons l ls ih =>
    intro s
    simp only [runNodeBubble]
    by_cases hty : l.action_type = ty
    · simp only [hty, if_true, if_pos rfl]
      cases hv : l.effect DispatchPhase.bubble false with
      | true =>
        obtain ⟨t, ht, hall⟩ :=
          ih ⟨true, s.invoked ++ [⟨DispatchStage.windowBubble, l.id⟩]⟩
        refine ⟨⟨DispatchStage.windowBubble, l.id⟩ :: t, ?_, ?_⟩
        · simp only [hv, if_true]
          rw [ht]
          simp
        · intro i hi
          rcases List.mem_cons.mp hi with h | h
          · rw [h]
          · exact hall i h
      | false =>
        refine ⟨[⟨DispatchStage.windowBubble, l.id⟩], ?_, ?_⟩
        · simp [hv]
        · intro i hi
          rcases List.mem_cons.mp hi with h | h
          · rw [h]
          · exact absurd h (by simp)
    · simp only [if_neg hty]
      exact ih s

/-- The path-bubble loop only appends invocations, all tagged with the
window-bubble stage. -/
theorem runPathBubble_invoked (ty : Nat) (ns : List DispatchNode) :
    ∀ s : DispatchState, ∃ t : List Invocation,
      (runPathBubble ty ns s).invoked = s.invoked ++ t
        ∧ ∀ i ∈ t, i.stage = DispatchStage.windowBubble := by
  induction ns with
  | nil =>
    intro s
    exact ⟨[], by simp [runPathBubble]⟩
  | cons n ns ih =>
    intro s
    simp only [runPathBubble]
    obtain ⟨t1, ht1, hall1⟩ := runNodeBubble_invoked ty n.action_listeners s
    cases hv : (runNodeBubble ty n.action_listeners s).propagate_event with
    | true =>
      obtain ⟨t2, ht2, hall2⟩ := ih (runNodeBubble ty n.action_listeners s)
      refine ⟨t1 ++ t2, ?_, ?_⟩
      · simp only [hv, if_true]
        rw [ht2, ht1]
        simp
      · intro i hi
        rcases List.mem_append.mp hi with h | h
        · exact hall1 i h
        · exact hall2 i h
    | false =>
      refine ⟨t1, ?_, ?_⟩
      · simp only [hv, Bool.false_eq_true, if_false]
        exact ht1
      · exact hall1

/-- The global-bubble loop only appends invocations, all tagged with its own
stage. -/
theorem runGlobalBubble_invoked (ls : List ActionListener) :
    ∀ s : DispatchState, ∃ t : List Invocation,
      (runGlobalBubble ls s).invoked = s.invoked ++ t
        ∧ ∀ i ∈ t, i.stage = DispatchStage.globalBubble := by
  induction ls with
  | nil =>
    intro s
    exact ⟨[], by simp [runGlobalBubble]⟩
  | cons l ls ih =>
    intro s
    simp only [runGlobalBubble]
    cases hv : l.effect DispatchPhase.bubble false with
    | true =>
      obtain ⟨t, ht, hall⟩ :=
        ih ⟨true, s.invoked ++ [⟨DispatchStage.globalBubble, l.id⟩]⟩
      refine ⟨⟨DispatchStage.globalBubble, l.id⟩ :: t, ?_, ?_⟩
      · simp only [hv, if_true]
        rw [ht]
        simp
      · intro i hi
        rcases List.mem_cons.mp hi with h | h
        · rw [h]
        · exact hall i h
    | false =>
      refine ⟨[⟨DispatchStage.globalBubble, l.id⟩], ?_, ?_⟩
      · simp [hv]
      · intro i hi
        rcases List.mem_cons.mp hi with h | h
        · rw [h]
        · exact absurd h (by simp)

/-- A block of invocations with one common stage maps to a sorted index
list. -/
theorem sorted_stage_const (c : DispatchStage) :
    ∀ t : List Invocation, (∀ i ∈ t, i.stage = c) →
      (t.map (fun i => i.stage.idx)).Sorted (· ≤ ·) := by
  intro t
  induction t with
  | nil => intro _; exact List.sorted_nil
  | cons i t ih =>
    intro h
    rw [List.map_cons, List.sorted_cons]
    constructor
    · intro b hb
      rw [List.mem_map] at hb
      obtain ⟨j, hj, hb⟩ := hb
      rw [← hb, h j (List.mem_cons_of_mem i hj), h i (List.mem_cons_self i t)]
    · exact ih (fun j hj => h j (List.mem_cons_of_mem i hj))

/-- Appending keeps stage-index sortedness when every left element's index is
bounded by every right element's. -/
theorem sorted_stage_append (l1 l2 : List Invocation)
    (h1 : (l1.map (fun i => i.stage.idx)).Sorted (· ≤ ·))
    (h2 : (l2.map (fun i => i.stage.idx)).Sorted (· ≤ ·))
    (h12 : ∀ a ∈ l1, ∀ b ∈ l2, a.stage.idx ≤ b.stage.idx) :
    (((l1 ++ l2).map (fun i => i.stage.idx))).Sorted (· ≤ ·) := by
  rw [List.map_append]
  show List.Pairwise _ _
  rw [List.pairwise_append]
  refine ⟨h1, h2, ?_⟩
  intro a ha b hb
  rw [List.mem_map] at ha hb
  obtain ⟨i, hi, ha⟩ := ha
  obtain ⟨j, hj, hb⟩ := hb
  rw [← ha, ← hb]
  exact h12 i hi j hj

/-- Four stage-constant blocks in stage order map to a sorted index list. -/
theorem sorted_stage_blocks (t1 t2 t3 t4 : List Invocation)
    (h1 : ∀ i ∈ t1, i.stage = DispatchStage.globalCapture)
    (h2 : ∀ i ∈ t2, i.stage = DispatchStage.windowCapture)
    (h3 : ∀ i ∈ t3, i.stage = DispatchStage.windowBubble)
    (h4 : ∀ i ∈ t4, i.stage = DispatchStage.globalBubble) :
    (((t1 ++ (t2 ++ (t3 ++ t4))).map (fun i => i.stage.idx))).Sorted (· ≤ ·) := by
  have s34 : (((t3 ++ t4).map (fun i => i.stage.idx))).Sorted (· ≤ ·) := by
    apply sorted_stage_append _ _ (sorted_stage_const _ t3 h3) (sorted_stage_const _ t4 h4)
    intro a ha b hb
    rw [h3 a ha, h4 b hb]
    exact Nat.le_succ 2
  have s234 : (((t2 ++ (t3 ++ t4)).map (fun i => i.stage.idx))).Sorted (· ≤ ·) := by
    apply sorted_stage_append _ _ (sorted_stage_const _ t2 h2) s34
    intro a ha b hb
    rw [h2 a ha]
    rcases List.mem_append.mp hb with h | h
    · rw [h3 b h]; exact Nat.le_succ 1
    · rw [h4 b h]; exact Nat.le_of_lt (by decide)
  apply sorted_stage_append _ _ (sorted_stage_const _ t1 h1) s234
  intro a ha b _
  rw [h1 a ha]
  exact Nat.zero_le _

/-- Once the global-capture loop has stopped propagation within a prefix, the
remaining listeners of that stage are never invoked. -/
theorem runGlobalCapture_stop (l : ActionListener) (ls2 : List ActionListener) :
    ∀ (ls1 : List ActionListener) (s : DispatchState),
      (runGlobalCapture (ls1 ++ [l]) s).propagate_event = false →
        runGlobalCapture (ls1 ++ l :: ls2) s = runGlobalCapture (ls1 ++ [l]) s := by
  intro ls1
  induction ls1 with
  | nil =>
    intro s h
    simp only [List.nil_append] at h ⊢
    cases hv : l.effect DispatchPhase.capture s.propagate_event with
    | true => simp [runGlobalCapture, hv] at h
    | false => simp [runGlobalCapture, hv]
  | cons l0 ls1 ih =>
    intro s h
    simp only [List.cons_append] at h ⊢
    simp only [runGlobalCapture] at h ⊢
    cases hv : l0.effect DispatchPhase.capture s.propagate_event with
    | true =>
      simp only [hv, if_true] at h ⊢
      exact ih _ h
    | false =>
      simp [hv]

/-- Once the per-node capture loop has stopped propagation at a matching
listener, the remaining listeners of that node are never invoked. -/
theorem runNodeCapture_stop (ty : Nat) (l : ActionListener) (ls2 : List ActionListener)
    (hl : l.action_type = ty) :
    ∀ (ls1 : List ActionListener) (s : DispatchState),
      (runNodeCapture ty (ls1 ++ [l]) s).propagate_event = false →
        runNodeCapture ty (ls1 ++ l :: ls2) s = runNodeCapture ty (ls1 ++ [l]) s := by
  intro ls1
  induction ls1 with
  | nil =>
    intro s h
    simp only [List.nil_append] at h ⊢
    cases hv : l.effect DispatchPhase.capture s.propagate_event with
    | true => simp [runNodeCapture, hl, hv] at h
    | false => simp [runNodeCapture, hl, hv]
  | cons l0 ls1 ih =>
    intro s h
    simp only [List.cons_append] at h ⊢
    simp only [runNodeCapture] at h ⊢
    by_cases hty : l0.action_type = ty
    · simp only [hty, if_pos rfl] at h ⊢
      cases hv : l0.effect DispatchPhase.capture s.propagate_event with
      | true =>
        simp only [hv, if_true] at h ⊢
        exact ih _ h
      | false =>
        simp [hv]
    · simp only [if_neg hty] at h ⊢
      exact ih _ h

/-- Once the path-capture loop has stopped propagation within a prefix of the
dispatch path, the remaining nodes of that stage are never visited. -/
theorem runPathCapture_stop (ty : Nat) (n : DispatchNode) (ns2 : List DispatchNode) :
    ∀ (ns1 : List DispatchNode) (s : DispatchState),
      (runPathCapture ty (ns1 ++ [n]) s).propagate_event = false →
        runPathCapture ty (ns1 ++ n :: ns2) s = runPathCapture ty (ns1 ++ [n]) s := by
  intro ns1
  induction ns1 with
  | nil =>
    intro s h
    simp only [List.nil_append] at h ⊢
    simp only [runPathCapture] at h ⊢
    cases hv : (runNodeCapture ty n.action_listeners s).propagate_event with
    | true => simp [hv, runPathCapture] at h
    | false => simp [hv]
  | cons n0 ns1 ih =>
    intro s h
    simp only [List.cons_append] at h ⊢
    simp only [runPathCapture] at h ⊢
    cases hv : (runNodeCapture ty n0.action_listeners s).propagate_event with
    | true =>
      simp only [hv, if_true] at h ⊢
      exact ih _ h
    | false =>
      simp [hv]

/-- Once the per-node bubble loop has stopped at a matching listener (the
default unless the listener re-enables propagation), the remaining listeners
of that node are never invoked. -/
theorem runNodeBubble_stop (ty : Nat) (l : ActionListener) (ls2 : List ActionListener)
    (hl : l.action_type = ty) :
    ∀ (ls1 : List ActionListener) (s : DispatchState),
      (runNodeBubble ty (ls1 ++ [l]) s).propagate_event = false →
        runNodeBubble ty (ls1 ++ l :: ls2) s = runNodeBubble ty (ls1 ++ [l]) s := by
  intro ls1
  induction ls1 with
  | nil =>
    intro s h
    simp only [List.nil_append] at h ⊢
    cases hv : l.effect DispatchPhase.bubble false with
    | true => simp [runNodeBubble, hl, hv] at h
    | false => simp [runNodeBubble, hl, hv]
  | cons l0 ls1 ih =>
    intro s h
    simp only [List.cons_append] at h ⊢
    simp only [runNodeBubble] at h ⊢
    by_cases hty : l0.action_type = ty
    · simp only [hty, if_pos rfl] at h ⊢
      cases hv : l0.effect DispatchPhase.bubble false with
      | true =>
        simp only [hv, if_true] at h ⊢
        exact ih _ h
      | false =>
        simp [hv]
    · simp only [if_neg hty] at h ⊢
      exact ih _ h

/-- Once the path-bubble loop has stopped propagation within a prefix of the
reversed dispatch path, the remaining nodes of that stage are never
visited. -/
theorem runPathBubble_stop (ty : Nat) (n : DispatchNode) (ns2 : List DispatchNode) :
    ∀ (ns1 : List DispatchNode) (s : DispatchState),
      (runPathBubble ty (ns1 ++ [n]) s).propagate_event = false →
        runPathBubble ty (ns1 ++ n :: ns2) s = runPathBubble ty (ns1 ++ [n]) s := by
  intro ns1
  induction ns1 with
  | nil =>
    intro s h
    simp only [List.nil_append] at h ⊢
    simp only [runPathBubble] at h ⊢
    cases hv : (runNodeBubble ty n.action_listeners s).propagate_event with
    | true => simp [hv, runPathBubble] at h
    | false => simp [hv]
  | cons n0 ns1 ih =>
    intro s h
    simp only [List.cons_append] at h ⊢
    simp only [runPathBubble] at h ⊢
    cases hv : (runNodeBubble ty n0.action_listeners s).propagate_event with
    | true =>
      simp only [hv, if_true] at h ⊢
      exact ih _ h
    | false =>
      simp [hv]

/-- Once the global-bubble loop has stopped within a prefix, the remaining
listeners of that stage are never invoked. -/
theorem runGlobalBubble_stop (l : ActionListener) (ls2 : List ActionListener) :
    ∀ (ls1 : List ActionListener) (s : DispatchState),
      (runGlobalBubble (ls1 ++ [l]) s).propagate_event = false →
        runGlobalBubble (ls1 ++ l :: ls2) s = runGlobalBubble (ls1 ++ [l]) s := by
  intro ls1
  induction ls1 with
  | nil =>
    intro s h
    simp only [List.nil_append] at h ⊢
    cases hv : l.effect DispatchPhase.bubble false with
    | true => simp [runGlobalBubble, hv] at h
    | false => simp [runGlobalBubble, hv]
  | cons l0 ls1 ih =>
    intro s h
    simp only [List.cons_append] at h ⊢
    simp only [runGlobalBubble] at h ⊢
    cases hv : l0.effect DispatchPhase.bubble false with
    | true =>
      simp only [hv, if_true] at h ⊢
      exact ih _ h
    | false =>
      simp [hv]

/-- The invocation log of a full action dispatch lists the four stages in
source order. -/
theorem dispatch_stages_sorted (g : List ActionListener)
    (path : List DispatchNode) (ty : Nat) :
    (((dispatch_action_on_node g path ty).invoked.map
        (fun i => i.stage.idx))).Sorted (· ≤ ·) := by
  obtain ⟨t1, ht1, ha1⟩ := runGlobalCapture_invoked g ⟨true, []⟩
  simp only [dispatch_action_on_node]
  cases h1 : (runGlobalCapture g ⟨true, []⟩).propagate_event with
  | false =>
    simp only [h1, Bool.false_eq_true, if_false]
    rw [ht1]
    simpa using sorted_stage_blocks t1 [] [] [] ha1 (by simp) (by simp) (by simp)
  | true =>
    simp only [h1, if_true]
    obtain ⟨t2, ht2, ha2⟩ := runPathCapture_invoked ty path (runGlobalCapture g ⟨true, []⟩)
    cases h2 : (runPathCapture ty path (runGlobalCapture g ⟨true, []⟩)).propagate_event with
    | false =>
      simp only [h2, Bool.false_eq_true, if_false]
      rw [ht2, ht1]
      simpa [List.append_assoc] using
        sorted_stage_blocks t1 t2 [] [] ha1 ha2 (by simp) (by simp)
    | true =>
      simp only [h2, if_true]
      obtain ⟨t3, ht3, ha3⟩ := runPathBubble_invoked ty path.reverse
        (runPathCapture ty path (runGlobalCapture g ⟨true, []⟩))
      cases h3 : (runPathBubble ty path.reverse
          (runPathCapture ty path (runGlobalCapture g ⟨true, []⟩))).propagate_event with
      | false =>
        simp only [h3, Bool.false_eq_true, if_false]
        rw [ht3, ht2, ht1]
        simpa [List.append_assoc] using
          sorted_stage_blocks t1 t2 t3 [] ha1 ha2 ha3 (by simp)
      | true =>
        simp only [h3, if_true]
        obtain ⟨t4, ht4, ha4⟩ := runGlobalBubble_invoked g.reverse
          (runPathBubble ty path.reverse
            (runPathCapture ty path (runGlobalCapture g ⟨true, []⟩)))
        rw [ht4, ht3, ht2, ht1]
        simpa [List.append_assoc] using
          sorted_stage_blocks t1 t2 t3 t4 ha1 ha2 ha3 ha4

/-- C8: `dispatch_action_on_node` performs exactly its four stages in source
order — every invocation log lists global capture, then window capture, then
window bubble, then global bubble; each stage is entered only while
propagation is still enabled, so a stage that stops propagation is the last
to run; and inside each stage's loop, once a listener (a matching one, for
the window stages) leaves propagation stopped, no later listener of that
stage runs. -/
theorem C8_four_stage_dispatch (g : List ActionListener)
    (path : List DispatchNode) (ty : Nat) :
    (((dispatch_action_on_node g path ty).invoked.map
        (fun i => i.stage.idx))).Sorted (· ≤ ·)
      ∧ ((runGlobalCapture g ⟨true, []⟩).propagate_event = false →
          dispatch_action_on_node g path ty = runGlobalCapture g ⟨true, []⟩)
      ∧ ((runGlobalCapture g ⟨true, []⟩).propagate_event = true →
          (runPathCapture ty path (runGlobalCapture g ⟨true, []⟩)).propagate_event
              = false →
          dispatch_action_on_node g path ty
            = runPathCapture ty path (runGlobalCapture g ⟨true, []⟩))
      ∧ ((runGlobalCapture g ⟨true, []⟩).propagate_event = true →
          (runPathCapture ty path (runGlobalCapture g ⟨true, []⟩)).propagate_event
              = true →
          (runPathBubble ty path.reverse
              (runPathCapture ty path (runGlobalCapture g ⟨true, []⟩))).propagate_event
              = false →
          dispatch_action_on_node g path ty
            = runPathBubble ty path.reverse
                (runPathCapture ty path (runGlobalCapture g ⟨true, []⟩)))
      ∧ ((runGlobalCapture g ⟨true, []⟩).propagate_event = true →
          (runPathCapture ty path (runGlobalCapture g ⟨true, []⟩)).propagate_event
              = true →
          (runPathBubble ty path.reverse
              (runPathCapture ty path (runGlobalCapture g ⟨true, []⟩))).propagate_event
              = true →
          dispatch_action_on_node g path ty
            = runGlobalBubble g.reverse
                (runPathBubble ty path.reverse
                  (runPathCapture ty path (runGlobalCapture g ⟨true, []⟩))))
      ∧ (∀ (l : ActionListener) (ls2 ls1 : List ActionListener) (s : DispatchState),
          (runGlobalCapture (ls1 ++ [l]) s).propagate_event = false →
            runGlobalCapture (ls1 ++ l :: ls2) s = runGlobalCapture (ls1 ++ [l]) s)
      ∧ (∀ (l : ActionListener) (ls2 ls1 : List ActionListener) (s : DispatchState),
          l.action_type = ty →
          (runNodeCapture ty (ls1 ++ [l]) s).propagate_event = false →
            runNodeCapture ty (ls1 ++ l :: ls2) s = runNodeCapture ty (ls1 ++ [l]) s)
      ∧ (∀ (n : DispatchNode) (ns2 ns1 : List DispatchNode) (s : DispatchState),
          (runPathCapture ty (ns1 ++ [n]) s).propagate_event = false →
            runPathCapture ty (ns1 ++ n :: ns2) s = runPathCapture ty (ns1 ++ [n]) s)
      ∧ (∀ (l : ActionListener) (ls2 ls1 : List ActionListener) (s : DispatchState),
          l.action_type = ty →
          (runNodeBubble ty (ls1 ++ [l]) s).propagate_event = false →
            runNodeBubble ty (ls1 ++ l :: ls2) s = runNodeBubble ty (ls1 ++ [l]) s)
      ∧ (∀ (n : DispatchNode) (ns2 ns1 : List DispatchNode) (s : DispatchState),
          (runPathBubble ty (ns1 ++ [n]) s).propagate_event = false →
            runPathBubble ty (ns1 ++ n :: ns2) s = runPathBubble ty (ns1 ++ [n]) s)
      ∧ (∀ (l : ActionListener) (ls2 ls1 : List ActionListener) (s : DispatchState),
          (runGlobalBubble (ls1 ++ [l]) s).propagate_event = false →
            runGlobalBubble (ls1 ++ l :: ls2) s = runGlobalBubble (ls1 ++ [l]) s) := by
  refine ⟨dispatch_stages_sorted g path ty, ?_, ?_, ?_, ?_,
    fun l ls2 ls1 s h => runGlobalCapture_stop l ls2 ls1 s h,
    fun l ls2 ls1 s hl h => runNodeCapture_stop ty l ls2 hl ls1 s h,
    fun n ns2 ns1 s h => runPathCapture_stop ty n ns2 ns1 s h,
    fun l ls2 ls1 s hl h => runNodeBubble_stop ty l ls2 hl ls1 s h,
    fun n ns2 ns1 s h => runPathBubble_stop ty n ns2 ns1 s h,
    fun l ls2 ls1 s h => runGlobalBubble_stop l ls2 ls1 s h⟩
  · intro h1
    simp [dispatch_action_on_node, h1]
  · intro h1 h2
    simp [dispatch_action_on_node, h1, h2]
  · intro h1 h2 h3
    simp [dispatch_action_on_node, h1, h2, h3]
  · intro h1 h2 h3
    simp [dispatch_action_on_node, h1, h2, h3]

/-- Witness for C8 on concrete listeners: a stopping global-capture listener
prevents the following listener of the same stage from running, and the full
dispatch on that listener list equals the first stage alone. -/
theorem C8_four_stage_dispatch_witness :
    runGlobalCapture ([] ++ stopListener :: [passListener]) ⟨true, []⟩
        = runGlobalCapture ([] ++ [stopListener]) ⟨true, []⟩
      ∧ dispatch_action_on_node [stopListener, passListener] [] 0
        = runGlobalCapture [stopListener, passListener] ⟨true, []⟩ := by
  have h := C8_four_stage_dispatch [stopListener, passListener] [] 0
  exact ⟨h.2.2.2.2.2.1 stopListener [passListener] [] ⟨true, []⟩ rfl,
    h.2.1 rfl⟩

end Spec2Proof
